import Mathlib

/-!
# Nestlé chatbot front end: response formatting and source normalisation

A shallow embedding of the string functions of `src/frontend/script.js`
(`formatBotResponse`, `wrapLongText`, `cleanSourceUrl`, `getDisplayUrl` and the
source de-duplication of `addBotMessage`), followed by theorems about them.

JavaScript strings are sequences of UTF-16 code units, and every operation the
script uses (`length`, `split`, `trim`, `replace`, regular expressions without
the `u` flag) works on code units.  A string is therefore embedded as a list of
code units, each a natural number.
-/

set_option autoImplicit false

namespace NestleChatbot

/-! ## Strings -/

/-- A JavaScript string: its UTF-16 code units. -/
abbrev Str := List Nat

/-- The UTF-16 code units of a code point. -/
def utf16 (cp : Nat) : Str :=
  if cp < 0x10000 then [cp]
  else [0xD800 + (cp - 0x10000) / 0x400, 0xDC00 + (cp - 0x10000) % 0x400]

/-- A string literal of the script, as code units. -/
def js (s : String) : Str := s.toList.flatMap (fun c => utf16 c.toNat)

/-- ECMAScript `WhiteSpace` and `LineTerminator` code units: what `\s` matches
and what `trim` removes. -/
def isSpace (c : Nat) : Bool :=
  c == 9 || c == 10 || c == 11 || c == 12 || c == 13 || c == 32 || c == 0xA0 ||
  c == 0x1680 || (0x2000 ≤ c && c ≤ 0x200A) || c == 0x2028 || c == 0x2029 ||
  c == 0x202F || c == 0x205F || c == 0x3000 || c == 0xFEFF

/-- ECMAScript `LineTerminator` code units: what `.` does not match. -/
def isLineTerminator (c : Nat) : Bool :=
  c == 10 || c == 13 || c == 0x2028 || c == 0x2029

/-- The class `\d`. -/
def isDigit (c : Nat) : Bool := 48 ≤ c && c ≤ 57

/-- The class `[a-zA-Z0-9]`. -/
def isAlnum (c : Nat) : Bool :=
  (97 ≤ c && c ≤ 122) || (65 ≤ c && c ≤ 90) || (48 ≤ c && c ≤ 57)

/-- The class `\w`, which is `[A-Za-z0-9_]`. -/
def isWord (c : Nat) : Bool := isAlnum c || c == 95

/-- `s.startsWith(p)`. -/
def startsWith : Str → Str → Bool
  | _, [] => true
  | [], _ :: _ => false
  | c :: cs, p :: ps => c == p && startsWith cs ps

/-- `s.includes(p)`. -/
def includes : Str → Str → Bool
  | [], p => startsWith [] p
  | c :: cs, p => startsWith (c :: cs) p || includes cs p

/-- `s.trim()`. -/
def trim (s : Str) : Str := (s.dropWhile isSpace).rdropWhile isSpace

/-- `s.split(sep)` for a separator of one code unit. -/
def split (sep : Nat) : Str → List Str
  | [] => [[]]
  | c :: cs =>
    if c = sep then [] :: split sep cs
    else
      match split sep cs with
      | [] => [[c]]
      | l :: ls => (c :: l) :: ls

/-! ## Regular expressions

A regular expression of the script is embedded by its matcher at one position:
given the input from that position to its end, the matcher returns the length of
the match the backtracking engine finds there and the text that the replacement
refers to as `$1`, or `none` when the expression does not match at that
position.  No expression used with `replace` can match the empty string. -/

/-- The matcher of a regular expression at one position. -/
abbrev Matcher := Str → Option (Nat × Str)

/-- The scan of `replace` with a global expression: `skip` is the number of
code units still covered by the previous match. -/
def replaceAllAux (m : Matcher) (rep : Str → Str) : Nat → Str → Str
  | _, [] => []
  | skip + 1, _ :: cs => replaceAllAux m rep skip cs
  | 0, c :: cs =>
    match m (c :: cs) with
    | some (len, cap) => rep cap ++ replaceAllAux m rep (len - 1) cs
    | none => c :: replaceAllAux m rep 0 cs

/-- `s.replace(/re/g, rep)`: every match, leftmost first, each search resuming
where the previous match ended. -/
def replaceAll (m : Matcher) (rep : Str → Str) (s : Str) : Str :=
  replaceAllAux m rep 0 s

/-- `s.replace(/re/, rep)` and `s.replace(pattern, rep)`: the leftmost match
only. -/
def replaceFirst (m : Matcher) (rep : Str → Str) : Str → Str
  | [] => []
  | c :: cs =>
    match m (c :: cs) with
    | some (len, cap) => rep cap ++ (c :: cs).drop len
    | none => c :: replaceFirst m rep cs

/-- `s.match(/re/)[0]`: the text of the leftmost match, if any. -/
def firstMatch (m : Matcher) : Str → Option Str
  | [] => none
  | c :: cs =>
    match m (c :: cs) with
    | some (len, _) => some ((c :: cs).take len)
    | none => firstMatch m cs

/-- A literal pattern (a string pattern, or an expression without operators);
`$1` is the match itself. -/
def lit (p : Str) : Matcher := fun s =>
  if startsWith s p then some (p.length, p) else none

/-- The expression `([a-zA-Z0-9]{15,})`: a greedy run, which has to reach 15 code
units.  A shorter run cannot match, and the quantifier never gives back what
it took because nothing follows it. -/
def alnumRun : Matcher := fun s =>
  let run := s.takeWhile isAlnum
  if 15 ≤ run.length then some (run.length, run) else none

/-- The length of the scheme that `https?:\/\/` matches: `s?` takes an `s` when
there is one, and dropping it again cannot help, since `:` would then have to
match that `s`. -/
def schemeLength (s : Str) : Option Nat :=
  if startsWith s (js "https://") then some 8
  else if startsWith s (js "http://") then some 7
  else none

/-- The expression `(https?:\/\/[^\s]+)`: the scheme and a greedy non-empty run
of non-whitespace. -/
def urlRun : Matcher := fun s =>
  match schemeLength s with
  | none => none
  | some n =>
    let run := (s.drop n).takeWhile (fun c => !isSpace c)
    if run = [] then none else some (n + run.length, s.take (n + run.length))

/-- The expression `(\d+\.\s)`: a greedy run of digits, a dot and one whitespace
code unit.  A shorter run of digits would be followed by a digit, not by the
dot. -/
def numberPrefix : Matcher := fun s =>
  let ds := s.takeWhile isDigit
  if ds = [] then none
  else
    match s.drop ds.length with
    | dot :: sp :: _ =>
      if dot = 46 ∧ isSpace sp = true then some (ds.length + 2, s.take (ds.length + 2))
      else none
    | _ => none

/-- The lazy `(.*?)` of `\*\*(.*?)\*\*` after the opening markers: the number of
code units up to the nearest closing `**`, none of them a line terminator. -/
def lazyToStars : Str → Option Nat
  | [] => none
  | c :: cs =>
    if startsWith (c :: cs) (js "**") then some 0
    else if isLineTerminator c then none
    else (lazyToStars cs).map (· + 1)

/-- The expression `\*\*(.*?)\*\*`; `$1` is the text between the markers. -/
def boldSpan : Matcher := fun s =>
  if startsWith s (js "**") then
    match lazyToStars (s.drop 2) with
    | some n => some (n + 4, (s.drop 2).take n)
    | none => none
  else none

/-- The lazy `(.*?)(\n|$)` after a heading marker: the number of code units of
`$1` and whether a newline (rather than the end of the input) closes the
match.  A line terminator other than `\n` stops `.` and is neither `\n` nor
the end, so the match fails there. -/
def lazyToLineEnd : Str → Option (Nat × Bool)
  | [] => some (0, false)
  | c :: cs =>
    if c = 10 then some (0, true)
    else if isLineTerminator c then none
    else (lazyToLineEnd cs).map (fun r => (r.1 + 1, r.2))

/-- The expressions `### (.*?)(\n|$)` and `## (.*?)(\n|$)`, by their marker. -/
def headingLine (marker : Str) : Matcher := fun s =>
  if startsWith s marker then
    match lazyToLineEnd (s.drop marker.length) with
    | some (n, nl) =>
      some (marker.length + n + (if nl then 1 else 0), (s.drop marker.length).take n)
    | none => none
  else none

/-- `s.replace(/^(<br>)+/, '')`: the leading run of `<br>` is removed. -/
def stripLeadingBr : Str → Str
  | 60 :: 98 :: 114 :: 62 :: rest => stripLeadingBr rest
  | s => s

/-! ## `wrapLongText` -/

/-- The function `wrapLongText` of the script: first the long alphanumeric runs,
then the URLs, the second pass reading the output of the first. -/
def wrapLongText (text : Str) : Str :=
  replaceAll urlRun (fun m => js "<span class=\"breakable-url\">" ++ m ++ js "</span>")
    (replaceAll alnumRun
      (fun m => js "<span class=\"breakable-text\">" ++ m ++ js "</span>") text)

/-! ## `formatBotResponse` -/

/-- `line.match(/^(\d+\.\s)(.*)$/)`: the number prefix and the rest of the line,
which `.` has to cover up to the end of the input. -/
def numberedLine (line : Str) : Option (Str × Str) :=
  match numberPrefix line with
  | none => none
  | some (n, number) =>
    if (line.drop n).all (fun c => !isLineTerminator c) then some (number, line.drop n)
    else none

/-- `content.match(/^(\*\*[^*]+\*\*:?)\s*(.*)$/)`: group 1 and group 2.  Every
quantifier is greedy and none can usefully give back: a shorter `[^*]+` is
followed by a code unit that is not `*`, and a shorter `:?` or `\s*` leaves
`(.*)$` the same line terminator to fail on. -/
def boldTitle (content : Str) : Option (Str × Str) :=
  if startsWith content (js "**") then
    let payload := (content.drop 2).takeWhile (fun c => c ≠ 42)
    let afterPayload := content.drop (2 + payload.length)
    if payload ≠ [] ∧ startsWith afterPayload (js "**") = true then
      let afterStars := afterPayload.drop 2
      let colon := if startsWith afterStars (js ":") then 1 else 0
      let rest := (afterStars.drop colon).dropWhile isSpace
      if rest.all (fun c => !isLineTerminator c) then
        some (content.take (2 + payload.length + 2 + colon), rest)
      else none
    else none
  else none

/-- The body of the loop over the lines: what one line appends to `formatted`. -/
def formatLine (rawLine : Str) : Str :=
  let line := trim rawLine
  if line = [] then []
  else if startsWith line (js "### ") then
    let headingText := replaceAll (lit (js "**")) (fun _ => [])
      (replaceFirst (lit (js "### ")) (fun _ => []) line)
    js "<h3 class=\"response-heading\">" ++ headingText ++ js "</h3>"
  else if startsWith line (js "## ") then
    let headingText := replaceAll (lit (js "**")) (fun _ => [])
      (replaceFirst (lit (js "## ")) (fun _ => []) line)
    js "<h2 class=\"response-heading\">" ++ headingText ++ js "</h2>"
  else if (numberPrefix line).isSome then
    match numberedLine line with
    | none => []
    | some (number, content) =>
      match boldTitle content with
      | some (bold, restText) =>
        let boldText := replaceAll (lit (js "**")) (fun _ => []) bold
        js "<div class=\"numbered-item\">\n              <span class=\"item-number\">"
          ++ number
          ++ js "</span>\n              <div class=\"item-content\">\n                <strong class=\"item-title\">"
          ++ boldText
          ++ js "</strong>\n                "
          ++ (if restText = [] then []
              else js "<span class=\"item-description\">" ++ wrapLongText restText
                ++ js "</span>")
          ++ js "\n              </div>\n            </div>"
      | none =>
        js "<div class=\"numbered-item\">\n              <span class=\"item-number\">"
          ++ number
          ++ js "</span>\n              <div class=\"item-content\">"
          ++ wrapLongText content
          ++ js "</div>\n            </div>"
  else
    let line := replaceAll boldSpan (fun m => js "<strong>" ++ m ++ js "</strong>") line
    if line.length > 0 then
      js "<p class=\"response-paragraph\">" ++ wrapLongText line ++ js "</p>"
    else []

/-- The value of `formatted` after the loop over the lines. -/
def structuredPass (text : Str) : Str :=
  (split 10 text).foldl (fun formatted rawLine => formatted ++ formatLine rawLine) []

/-- The chain of `replace` calls of the "simple formatting" branch on the
original text: headings, bold, numbered prefixes, double newlines, newlines,
and the leading `<br>` run. -/
def substitutions (text : Str) : Str :=
  stripLeadingBr
    (replaceAll (lit (js "\n")) (fun _ => js "<br>")
      (replaceAll (lit (js "\n\n")) (fun _ => js "</p><p class=\"response-paragraph\">")
        (replaceAll numberPrefix
          (fun m => js "<br><br><span class=\"list-number\">" ++ m ++ js "</span>")
          (replaceAll boldSpan (fun m => js "<strong>" ++ m ++ js "</strong>")
            (replaceAll (headingLine (js "## "))
              (fun m => js "<h2 class=\"response-heading\">" ++ m ++ js "</h2>")
              (replaceAll (headingLine (js "### "))
                (fun m => js "<h3 class=\"response-heading\">" ++ m ++ js "</h3>")
                text))))))

/-- The "simple formatting" branch: the chain of global replacements on the
original text, wrapped in one paragraph when it is non-empty and contains no
`<p`. -/
def simpleFormatting (text : Str) : Str :=
  let formatted := substitutions text
  if formatted ≠ [] ∧ includes formatted (js "<p") = false then
    js "<p class=\"response-paragraph\">" ++ wrapLongText formatted ++ js "</p>"
  else formatted

/-- The function `formatBotResponse` of the script. -/
def formatBotResponse (text : Str) : Str :=
  let formatted := structuredPass text
  if includes formatted (js "numbered-item") = false
      ∧ includes formatted (js "response-heading") = false then
    simpleFormatting text
  else formatted

/-! ## Source de-duplication in `addBotMessage` -/

/-- `Set.prototype.add` on the elements of a set of strings in insertion order:
a string that is already an element is not added again. -/
def setAdd (elements : List Str) (value : Str) : List Str :=
  if value ∈ elements then elements else elements ++ [value]

/-- The list `uniqueSources` of `addBotMessage`, which is `[...new Set(sources)]`:
the set is filled from the sources in order and spread in insertion order. -/
def uniqueSources (sources : List Str) : List Str :=
  sources.foldl setAdd []

/-- The number that `addBotMessage` writes into the `source-count` span, which
is `uniqueSources.length`. -/
def sourceCount (sources : List Str) : Nat :=
  (uniqueSources sources).length

/-! ## `decodeURIComponent` and `encodeURIComponent`

The two functions belong to the ECMAScript standard library; they are embedded
from the abstract operations `Decode` and `Encode` of the language
specification. -/

/-- The exceptions the embedded functions can throw. -/
inductive JSError where
  | URIError
  | TypeError
  deriving DecidableEq, Repr

deriving instance DecidableEq for Except

/-- The value of a hexadecimal digit. -/
def hexValue (c : Nat) : Option Nat :=
  if 48 ≤ c ∧ c ≤ 57 then some (c - 48)
  else if 65 ≤ c ∧ c ≤ 70 then some (c - 55)
  else if 97 ≤ c ∧ c ≤ 102 then some (c - 87)
  else none

/-- One escape `%XX` at the head of the input: its octet and the input after
it. -/
def readEscape : Str → Option (Nat × Str)
  | 37 :: h1 :: h2 :: rest =>
    match hexValue h1, hexValue h2 with
    | some hi, some lo => some (16 * hi + lo, rest)
    | _, _ => none
  | _ => none

/-- A sequence of `n` escapes at the head of the input. -/
def readEscapes : Nat → Str → Option (List Nat × Str)
  | 0, s => some ([], s)
  | n + 1, s =>
    match readEscape s with
    | none => none
    | some (b, rest) =>
      match readEscapes n rest with
      | none => none
      | some (bs, rest2) => some (b :: bs, rest2)

/-- The number of leading 1 bits of an octet. -/
def leadingOnes (b : Nat) : Nat :=
  if b < 0x80 then 0
  else if b < 0xC0 then 1
  else if b < 0xE0 then 2
  else if b < 0xF0 then 3
  else if b < 0xF8 then 4
  else 5

/-- A continuation octet in the range `lo..hi`. -/
def inRange (lo hi b : Nat) : Bool := lo ≤ b && b ≤ hi

/-- The code point of a well-formed UTF-8 sequence of two to four octets (the
table of well-formed byte sequences of the Unicode standard), `none` for any
other sequence. -/
def utf8Decode : List Nat → Option Nat
  | [b0, b1] =>
    if inRange 0xC2 0xDF b0 && inRange 0x80 0xBF b1 then
      some ((b0 - 0xC0) * 0x40 + (b1 - 0x80))
    else none
  | [b0, b1, b2] =>
    if ((b0 == 0xE0 && inRange 0xA0 0xBF b1) ||
        (inRange 0xE1 0xEC b0 && inRange 0x80 0xBF b1) ||
        (b0 == 0xED && inRange 0x80 0x9F b1) ||
        (inRange 0xEE 0xEF b0 && inRange 0x80 0xBF b1)) && inRange 0x80 0xBF b2 then
      some ((b0 - 0xE0) * 0x1000 + (b1 - 0x80) * 0x40 + (b2 - 0x80))
    else none
  | [b0, b1, b2, b3] =>
    if ((b0 == 0xF0 && inRange 0x90 0xBF b1) ||
        (inRange 0xF1 0xF3 b0 && inRange 0x80 0xBF b1) ||
        (b0 == 0xF4 && inRange 0x80 0x8F b1)) &&
        inRange 0x80 0xBF b2 && inRange 0x80 0xBF b3 then
      some ((b0 - 0xF0) * 0x40000 + (b1 - 0x80) * 0x1000 + (b2 - 0x80) * 0x40 + (b3 - 0x80))
    else none
  | _ => none

/-- The loop of `Decode` with an empty set of preserved escapes.  Every step
consumes at least one code unit, so fuel equal to the length of the input is
never used up. -/
def decodeLoop : Nat → Str → Except JSError Str
  | 0, _ => .ok []
  | _ + 1, [] => .ok []
  | fuel + 1, c :: cs =>
    if c ≠ 37 then (decodeLoop fuel cs).map (fun r => c :: r)
    else
      match readEscape (c :: cs) with
      | none => .error .URIError
      | some (b, rest) =>
        if leadingOnes b = 0 then (decodeLoop fuel rest).map (fun r => b :: r)
        else if leadingOnes b = 1 ∨ leadingOnes b > 4 then .error .URIError
        else
          match readEscapes (leadingOnes b - 1) rest with
          | none => .error .URIError
          | some (bs, rest2) =>
            match utf8Decode (b :: bs) with
            | none => .error .URIError
            | some v => (decodeLoop fuel rest2).map (fun r => utf16 v ++ r)

/-- `decodeURIComponent(s)`. -/
def decodeURIComponent (s : Str) : Except JSError Str :=
  decodeLoop s.length s

/-- An upper-case hexadecimal digit. -/
def hexDigit (n : Nat) : Nat := if n < 10 then 48 + n else 55 + n

/-- The escapes `%XX` of a list of octets. -/
def percentEncode (octets : List Nat) : Str :=
  octets.flatMap (fun b => [37, hexDigit (b / 16), hexDigit (b % 16)])

/-- The expression `&rut=.*$`: the literal, then `.*` up to the end of the
input, which no line terminator may precede. -/
def rutSuffix : Matcher := fun s =>
  if startsWith s (js "&rut=") && (s.drop 5).all (fun c => !isLineTerminator c) then
    some (s.length, s)
  else none

/-- The expression `https?:\/\/[^\s&]+`: the scheme and a greedy non-empty run
of code units that are neither whitespace nor `&`. -/
def urlTarget : Matcher := fun s =>
  match schemeLength s with
  | none => none
  | some n =>
    let run := (s.drop n).takeWhile (fun c => !isSpace c && c != 38)
    if run = [] then none else some (n + run.length, s.take (n + run.length))

/-- The chain of rewrites under "Fix common encoding issues". -/
def fixEncoding (cleaned : Str) : Str :=
  replaceAll (lit (js "%26")) (fun _ => js "&")
    (replaceAll (lit (js "%3D")) (fun _ => js "=")
      (replaceAll (lit (js "%3F")) (fun _ => js "?")
        (replaceAll (lit (js "%2E")) (fun _ => js ".")
          (replaceAll (lit (js "%2F")) (fun _ => js "/")
            (replaceAll (lit (js "%3A")) (fun _ => js ":")
              (replaceFirst (lit (js "?uddg=")) (fun _ => [])
                (replaceFirst rutSuffix (fun _ => [])
                  (replaceFirst (lit (js "?uddg=https%3A%2F%2F")) (fun _ => [])
                    cleaned))))))))

/-- The function `cleanSourceUrl` of the script.  The call of
`decodeURIComponent` is not guarded, so its exception leaves the function. -/
def cleanSourceUrl (url : Str) : Except JSError Str :=
  if url = [] then .ok []
  else
    match decodeURIComponent url with
    | .error e => .error e
    | .ok decoded =>
      let cleaned := fixEncoding decoded
      let cleaned :=
        match firstMatch urlTarget cleaned with
        | some urlMatch => urlMatch
        | none => cleaned
      .ok (if startsWith cleaned (js "http") then cleaned else js "https://" ++ cleaned)

/-! ## `getDisplayUrl` -/

/-- The two properties of a `URL` object that the script reads. -/
structure URL where
  hostname : Str
  pathname : Str
  deriving DecidableEq, Repr

/-- The outcome of `new URL(input)` in the embedding. -/
inductive URLResult where
  /-- The constructor returns this object. -/
  | url (u : URL)
  /-- The constructor throws a `TypeError`. -/
  | typeError
  /-- The input is outside the part of the URL parser that is embedded. -/
  | outside
  deriving DecidableEq, Repr

/-- A host the embedded parser covers: non-empty labels of lower-case letters,
digits and hyphens, separated by dots, no label starting with `xn--`, the last
label starting with a letter (so the host does not end in a number). -/
def isPlainHost (host : Str) : Bool :=
  host.all (fun c => (97 ≤ c && c ≤ 122) || isDigit c || c == 45 || c == 46) &&
  (split 46 host).all (fun label => label != [] && !startsWith label (js "xn--")) &&
  (match (split 46 host).getLast? with
   | some (c :: _) => 97 ≤ c && c ≤ 122
   | _ => false)

/-- A path the embedded parser covers: empty, or segments of ASCII letters,
digits and `-._~` after slashes, none of them `.` or `..`. -/
def isPlainPath (path : Str) : Bool :=
  path.all (fun c => isAlnum c || c == 45 || c == 46 || c == 95 || c == 126 || c == 47) &&
  (path == [] || startsWith path (js "/")) &&
  (split 47 path).all (fun seg => seg != js "." && seg != js "..")

/-- Modelled from the WHATWG URL Standard: the constructor `new URL(input)` is a
platform interface, not code of the script.  Two parts of the basic URL parser
are embedded.  An input without `:` has no scheme and, as there is no base
URL, is rejected.  An input made of printable ASCII that starts with `http://`
or `https://`, continues with a plain host and a plain path, and ends there or
with a query or fragment, is parsed without any rewriting: the host and the
path are those substrings, the empty path being `/`.  Every other input is
`outside`. -/
def newURL (input : Str) : URLResult :=
  if 58 ∉ input then .typeError
  else
    match schemeLength input with
    | none => .outside
    | some n =>
      let rest := input.drop n
      let host := rest.takeWhile (fun c => c != 47 && c != 63 && c != 35)
      let path := (rest.drop host.length).takeWhile (fun c => c != 63 && c != 35)
      if input.all (fun c => 0x21 ≤ c && c ≤ 0x7E) && isPlainHost host && isPlainPath path then
        .url { hostname := host, pathname := if path = [] then js "/" else path }
      else .outside

/-- `l.toUpperCase()` for a string of one code unit matched by `\w`. -/
def toUpperCase (c : Nat) : Nat := if 97 ≤ c ∧ c ≤ 122 then c - 32 else c

/-- `s.replace(/\b\w/g, l => l.toUpperCase())`: a word code unit is replaced
where the code unit before it is not a word code unit or does not exist;
`prevWord` tells whether the previous code unit is a word code unit. -/
def capitalizeWords : Bool → Str → Str
  | _, [] => []
  | prevWord, c :: cs =>
    (if isWord c && !prevWord then toUpperCase c else c) :: capitalizeWords (isWord c) cs

/-- The function `getDisplayUrl` of the script; `none` where `new URL` is
outside the embedded part of the parser. -/
def getDisplayUrl (url : Str) : Option Str :=
  match newURL url with
  | .outside => none
  | .typeError => some (if url.length > 50 then url.take 47 ++ js "..." else url)
  | .url urlObj =>
    let displayName := replaceFirst (lit (js "www.")) (fun _ => []) urlObj.hostname
    let displayName :=
      if includes displayName (js "nestle") then
        if includes displayName (js "madewithnestle") then js "Made with Nestlé"
        else js "Nestlé Official"
      else displayName
    let pathParts := (split 47 urlObj.pathname).filter
      (fun part => part != [] && part != js "index.html")
    match pathParts.getLast? with
    | none => some displayName
    | some lastPart =>
      if lastPart.length < 30 then
        some (displayName ++ js " - "
          ++ capitalizeWords false (replaceAll (lit (js "-")) (fun _ => js " ") lastPart))
      else some displayName

/-! ## Lemmas on the string operations -/

theorem startsWith_nil (s : Str) : startsWith s [] = true := by
  cases s <;> rfl

theorem startsWith_append (p t : Str) : startsWith (p ++ t) p = true := by
  induction p with
  | nil => exact startsWith_nil _
  | cons a p ih => simpa [startsWith] using ih

theorem startsWith_iff (s p : Str) : startsWith s p = true ↔ ∃ t, s = p ++ t := by
  induction p generalizing s with
  | nil => simp [startsWith_nil]
  | cons a p ih =>
    cases s with
    | nil => simp [startsWith]
    | cons c cs =>
      simp only [startsWith, Bool.and_eq_true, beq_iff_eq, ih, List.cons_append, List.cons.injEq]
      constructor
      · rintro ⟨rfl, t, rfl⟩
        exact ⟨t, rfl, rfl⟩
      · rintro ⟨t, rfl, rfl⟩
        exact ⟨rfl, t, rfl⟩

theorem startsWith_cons_ne (c a : Nat) (cs p : Str) (h : c ≠ a) :
    startsWith (c :: cs) (a :: p) = false := by
  simp [startsWith, h]

theorem includes_of_startsWith (s p : Str) (h : startsWith s p = true) :
    includes s p = true := by
  cases s with
  | nil => simpa [includes] using h
  | cons c cs => simp [includes, h]

theorem includes_append_left (a b p : Str) (h : includes a p = true) :
    includes (a ++ b) p = true := by
  induction a with
  | nil =>
    have hp : p = [] := by
      cases p with
      | nil => rfl
      | cons x xs => simp [includes, startsWith] at h
    subst hp
    exact includes_of_startsWith _ _ (startsWith_nil _)
  | cons c cs ih =>
    simp only [includes, Bool.or_eq_true] at h
    rcases h with h | h
    · obtain ⟨t, ht⟩ := (startsWith_iff _ _).1 h
      apply includes_of_startsWith
      rw [ht, List.append_assoc]
      exact startsWith_append _ _
    · simp only [List.cons_append, includes, Bool.or_eq_true]
      exact Or.inr (ih h)

theorem replaceAllAux_short (m : Matcher) (rep : Str → Str) (n : Nat) (s : Str)
    (h : s.length ≤ n) : replaceAllAux m rep n s = [] := by
  induction s generalizing n with
  | nil => cases n <;> rfl
  | cons c cs ih =>
    cases n with
    | zero => simp at h
    | succ n =>
      simp only [replaceAllAux]
      exact ih n (by simpa using h)

theorem replaceAllAux_drop (m : Matcher) (rep : Str → Str) (n : Nat) (s : Str) :
    replaceAllAux m rep n s = replaceAllAux m rep 0 (s.drop n) := by
  induction s generalizing n with
  | nil => cases n <;> rfl
  | cons c cs ih =>
    cases n with
    | zero => rfl
    | succ n =>
      simp only [replaceAllAux, List.drop_succ_cons]
      exact ih n

theorem replaceAll_nil (m : Matcher) (rep : Str → Str) : replaceAll m rep [] = [] := rfl

theorem replaceAll_cons_none (m : Matcher) (rep : Str → Str) (c : Nat) (cs : Str)
    (h : m (c :: cs) = none) : replaceAll m rep (c :: cs) = c :: replaceAll m rep cs := by
  simp [replaceAll, replaceAllAux, h]

theorem replaceAll_cons_some (m : Matcher) (rep : Str → Str) (c : Nat) (cs : Str)
    (len : Nat) (cap : Str) (h : m (c :: cs) = some (len, cap)) :
    replaceAll m rep (c :: cs) = rep cap ++ replaceAll m rep (cs.drop (len - 1)) := by
  simp only [replaceAll, replaceAllAux, h]
  rw [replaceAllAux_drop]

/-- Where the expression matches at no position, `replace` returns its input. -/
theorem replaceAll_of_none (m : Matcher) (rep : Str → Str) (s : Str)
    (h : ∀ suf, suf <:+ s → m suf = none) : replaceAll m rep s = s := by
  induction s with
  | nil => rfl
  | cons c cs ih =>
    rw [replaceAll_cons_none m rep c cs (h _ (List.suffix_refl _))]
    rw [ih (fun suf hs => h suf (hs.trans (List.suffix_cons c cs)))]

/-- Code units that cannot start a match are copied. -/
theorem replaceAll_append_of_head (m : Matcher) (rep : Str → Str) (a b : Str)
    (h : ∀ c ∈ a, ∀ t, m (c :: t) = none) :
    replaceAll m rep (a ++ b) = a ++ replaceAll m rep b := by
  induction a with
  | nil => rfl
  | cons c cs ih =>
    rw [List.cons_append, replaceAll_cons_none m rep c _ (h c (List.mem_cons_self _ _) _)]
    rw [ih (fun x hx t => h x (List.mem_cons_of_mem _ hx) t)]
    rfl

theorem schemeLength_colon (s : Str) (n : Nat) (h : schemeLength s = some n) : 58 ∈ s := by
  unfold schemeLength at h
  split at h
  · next h1 =>
    obtain ⟨t, rfl⟩ := (startsWith_iff _ _).1 h1
    exact List.mem_append_left _ (by decide)
  · split at h
    · next h1 =>
      obtain ⟨t, rfl⟩ := (startsWith_iff _ _).1 h1
      exact List.mem_append_left _ (by decide)
    · simp at h

theorem urlRun_none_of_no_colon (s : Str) (h : 58 ∉ s) : urlRun s = none := by
  unfold urlRun
  cases hs : schemeLength s with
  | none => rfl
  | some n => exact absurd (schemeLength_colon s n hs) h

theorem alnumRun_none_of_short (s : Str) (h : (s.takeWhile isAlnum).length < 15) :
    alnumRun s = none := by
  unfold alnumRun
  simp only
  rw [if_neg (by omega)]

theorem takeWhile_eq_self (p : Nat → Bool) (s : Str) (h : ∀ c ∈ s, p c = true) :
    s.takeWhile p = s := by
  induction s with
  | nil => rfl
  | cons c cs ih =>
    rw [List.takeWhile_cons, if_pos (h c (List.mem_cons_self _ _))]
    rw [ih (fun x hx => h x (List.mem_cons_of_mem _ hx))]

theorem isAlnum_ne_colon (c : Nat) (h : isAlnum c = true) : c ≠ 58 := by
  rintro rfl
  simp [isAlnum] at h

theorem lit_none_of_not_mem (p s : Str) (x : Nat) (hp : x ∈ p) (hs : x ∉ s) :
    lit p s = none := by
  unfold lit
  rw [if_neg]
  intro h
  obtain ⟨t, rfl⟩ := (startsWith_iff _ _).1 h
  exact hs (List.mem_append_left _ hp)

theorem schemeLength_some (s : Str) (n : Nat) (h : schemeLength s = some n) :
    ∃ t, (s = js "http://" ++ t ∨ s = js "https://" ++ t) ∧ s.drop n = t := by
  unfold schemeLength at h
  split at h
  · next h1 =>
    obtain ⟨t, rfl⟩ := (startsWith_iff _ _).1 h1
    refine ⟨t, Or.inr rfl, ?_⟩
    cases h
    rfl
  · split at h
    · next h1 =>
      obtain ⟨t, rfl⟩ := (startsWith_iff _ _).1 h1
      refine ⟨t, Or.inl rfl, ?_⟩
      cases h
      rfl
    · simp at h

theorem wrapLongText_of_no_match (text : Str)
    (h1 : ∀ suf, suf <:+ text → alnumRun suf = none)
    (h2 : ∀ suf, suf <:+ text → urlRun suf = none) : wrapLongText text = text := by
  unfold wrapLongText
  rw [replaceAll_of_none alnumRun _ text h1, replaceAll_of_none urlRun _ text h2]

theorem no_colon_in_text_span (s : Str) (h : ∀ c ∈ s, isAlnum c = true) :
    58 ∉ js "<span class=\"breakable-text\">" ++ s ++ js "</span>" := by
  intro hm
  rcases List.mem_append.1 hm with hm | hm
  · rcases List.mem_append.1 hm with hm | hm
    · exact absurd hm (by decide)
    · exact isAlnum_ne_colon 58 (h 58 hm) rfl
  · exact absurd hm (by decide)

/-- C7: the threshold of the breakable-text span is exactly 15.  An alphanumeric
string of at least 15 code units is wrapped whole in one breakable-text span,
a shorter one is returned unchanged, and any text with no run of 15 or more
alphanumerics and no `http://` or `https://` followed by a non-whitespace code
unit is returned unchanged. -/
theorem wrapLongText_threshold :
    (∀ s : Str, (∀ c ∈ s, isAlnum c = true) → 15 ≤ s.length →
      wrapLongText s = js "<span class=\"breakable-text\">" ++ s ++ js "</span>") ∧
    (∀ s : Str, (∀ c ∈ s, isAlnum c = true) → s.length < 15 → wrapLongText s = s) ∧
    (∀ text : Str,
      (∀ a run b : Str, text = a ++ run ++ b → (∀ c ∈ run, isAlnum c = true) →
        run.length < 15) →
      (∀ (a b : Str) (c : Nat),
        text = a ++ js "http://" ++ c :: b ∨ text = a ++ js "https://" ++ c :: b →
        isSpace c = true) →
      wrapLongText text = text) := by
  refine ⟨?_, ?_, ?_⟩
  · intro s hs hlen
    unfold wrapLongText
    have h1 : replaceAll alnumRun
        (fun m => js "<span class=\"breakable-text\">" ++ m ++ js "</span>") s
        = js "<span class=\"breakable-text\">" ++ s ++ js "</span>" := by
      cases s with
      | nil => simp at hlen
      | cons c cs =>
        have hm : alnumRun (c :: cs) = some ((c :: cs).length, c :: cs) := by
          unfold alnumRun
          simp only [takeWhile_eq_self isAlnum (c :: cs) hs]
          rw [if_pos hlen]
        rw [replaceAll_cons_some _ _ c cs _ _ hm]
        have hd : cs.drop ((c :: cs).length - 1) = [] := by simp
        rw [hd, replaceAll_nil, List.append_nil]
    rw [h1]
    apply replaceAll_of_none
    intro suf hsuf
    apply urlRun_none_of_no_colon
    intro hmem
    exact no_colon_in_text_span s hs (hsuf.subset hmem)
  · intro s hs hlen
    apply wrapLongText_of_no_match
    · intro suf hsuf
      apply alnumRun_none_of_short
      have h1 : (suf.takeWhile isAlnum).length ≤ suf.length :=
        (List.takeWhile_sublist _).length_le
      have h2 : suf.length ≤ s.length := hsuf.length_le
      omega
    · intro suf hsuf
      apply urlRun_none_of_no_colon
      intro hmem
      exact isAlnum_ne_colon 58 (hs 58 (hsuf.subset hmem)) rfl
  · intro text hrun hurl
    apply wrapLongText_of_no_match
    · intro suf hsuf
      apply alnumRun_none_of_short
      obtain ⟨pre, hpre⟩ := hsuf
      apply hrun pre (suf.takeWhile isAlnum) (suf.dropWhile isAlnum)
      · rw [List.append_assoc, List.takeWhile_append_dropWhile, hpre]
      · intro c hc
        exact (List.mem_takeWhile_imp hc)
    · intro suf hsuf
      obtain ⟨pre, hpre⟩ := hsuf
      unfold urlRun
      cases hs : schemeLength suf with
      | none => rfl
      | some n =>
        obtain ⟨t, ht, hdrop⟩ := schemeLength_some suf n hs
        simp only [hdrop]
        cases t with
        | nil => simp
        | cons c b =>
          have hc : isSpace c = true := by
            apply hurl pre b c
            rcases ht with ht | ht
            · left
              rw [← hpre, ht, List.append_assoc]
            · right
              rw [← hpre, ht, List.append_assoc]
          simp [List.takeWhile_cons, hc]

/-- C7 (witness): a run of 20 letters is wrapped, a run of 14 letters is not,
and a short text without a URL is returned unchanged. -/
theorem wrapLongText_threshold_witness :
    wrapLongText (js "abcdefghijklmnopqrst")
      = js "<span class=\"breakable-text\">" ++ js "abcdefghijklmnopqrst" ++ js "</span>" ∧
    wrapLongText (js "abcdefghijklmn") = js "abcdefghijklmn" ∧
    wrapLongText (js "a b") = js "a b" :=
  ⟨wrapLongText_threshold.1 (js "abcdefghijklmnopqrst") (by decide) (by decide),
   wrapLongText_threshold.2.1 (js "abcdefghijklmn") (by decide) (by decide),
   wrapLongText_threshold.2.2 (js "a b")
    (by
      intro a run b h hr
      have hl : (a ++ run ++ b).length = 3 := by rw [← h]; rfl
      simp only [List.length_append] at hl
      omega)
    (by
      intro a b c h
      have hl : (js "a b").length = 3 := rfl
      have h7 : (js "http://").length = 7 := rfl
      have h8 : (js "https://").length = 8 := rfl
      rcases h with h | h <;>
      · rw [h] at hl
        simp only [List.length_append, List.length_cons] at hl
        omega)⟩

/-! ## The formatter at concrete inputs -/

set_option maxRecDepth 100000 in
/-- C10: a URL that contains a run of 15 or more alphanumerics is not wrapped
whole.  The first pass inserts `<span class="breakable-text">` into the URL, the
URL expression of the second pass stops at the space inside that tag, and the
breakable-url span closes in the middle of the inserted tag: the result differs
from the URL span around the text-wrapped URL. -/
theorem wrapLongText_url_long_run :
    wrapLongText (js "https://example.com/abcdefghijklmnopqrst")
      = js "<span class=\"breakable-url\">https://example.com/<span</span> class=\"breakable-text\">abcdefghijklmnopqrst</span>" ∧
    wrapLongText (js "https://example.com/abcdefghijklmnopqrst")
      ≠ js "<span class=\"breakable-url\">"
        ++ replaceAll alnumRun
            (fun m => js "<span class=\"breakable-text\">" ++ m ++ js "</span>")
            (js "https://example.com/abcdefghijklmnopqrst")
        ++ js "</span>" := by
  decide

set_option maxRecDepth 100000 in
/-- C9: the input `numbered-item`, newline, `x` has no heading line and no
numbered line, so the line pass produces two paragraphs and nothing else; the
text of the first paragraph contains `numbered-item`, the test on the markup
finds it, and the structured result is returned instead of the simple
formatting of the text. -/
theorem formatBotResponse_marker_in_text :
    (∀ line ∈ split 10 (js "numbered-item\nx"),
      startsWith (trim line) (js "### ") = false ∧
      startsWith (trim line) (js "## ") = false ∧
      numberPrefix (trim line) = none) ∧
    formatBotResponse (js "numbered-item\nx")
      = js "<p class=\"response-paragraph\">numbered-item</p><p class=\"response-paragraph\">x</p>" ∧
    simpleFormatting (js "numbered-item\nx")
      = js "<p class=\"response-paragraph\">numbered-item<br>x</p>" ∧
    formatBotResponse (js "numbered-item\nx") ≠ simpleFormatting (js "numbered-item\nx") := by
  decide

/-! ## Non-empty markup -/

theorem split_of_not_mem (sep : Nat) (s : Str) (h : sep ∉ s) : split sep s = [s] := by
  induction s with
  | nil => rfl
  | cons c cs ih =>
    have hc : c ≠ sep := fun e => h (e ▸ List.mem_cons_self _ _)
    have hcs : sep ∉ cs := fun hm => h (List.mem_cons_of_mem _ hm)
    simp [split, hc, ih hcs]

theorem takeWhile_append_stop (p : Nat → Bool) (a b : Str) (x : Nat)
    (ha : ∀ c ∈ a, p c = true) (hx : p x = false) : (a ++ x :: b).takeWhile p = a := by
  induction a with
  | nil => simp [List.takeWhile_cons, hx]
  | cons c cs ih =>
    rw [List.cons_append, List.takeWhile_cons, if_pos (ha c (List.mem_cons_self _ _))]
    rw [ih (fun y hy => ha y (List.mem_cons_of_mem _ hy))]

theorem isDigit_not_space (c : Nat) (h : isDigit c = true) : isSpace c = false := by
  simp only [isDigit, Bool.and_eq_true, decide_eq_true_eq] at h
  simp only [isSpace, Bool.or_eq_false_iff, beq_eq_false_iff_ne, Bool.and_eq_false_iff,
    decide_eq_false_iff_not]
  omega

theorem trim_of_ends (s : Str) (c x : Nat) (mid : Str) (hs : s = c :: mid ++ [x])
    (hc : isSpace c = false) (hx : isSpace x = false) : trim s = s := by
  subst hs
  unfold trim
  rw [List.cons_append, List.dropWhile_cons_of_neg (by simp [hc]), ← List.cons_append]
  exact List.rdropWhile_concat_neg _ _ _ (by simp [hx])

theorem trim_trailing_space (c x : Nat) (mid : Str)
    (hc : isSpace c = false) (hx : isSpace x = false) :
    trim (c :: mid ++ [x] ++ [32]) = c :: mid ++ [x] := by
  unfold trim
  rw [List.cons_append, List.cons_append, List.dropWhile_cons_of_neg (by simp [hc]),
    ← List.cons_append, ← List.cons_append]
  rw [List.rdropWhile_concat_pos _ _ _ (by decide)]
  exact List.rdropWhile_concat_neg _ _ _ (by simp [hx])

theorem numberPrefix_digits (d rest : Str) (hd : d ≠ []) (hdig : ∀ c ∈ d, isDigit c = true) :
    numberPrefix (d ++ 46 :: 32 :: rest) = some (d.length + 2, d ++ [46, 32]) := by
  unfold numberPrefix
  have htw : (d ++ 46 :: 32 :: rest).takeWhile isDigit = d :=
    takeWhile_append_stop isDigit d _ 46 hdig (by decide)
  simp only [htw]
  rw [if_neg hd, List.drop_left]
  have ht : (d ++ 46 :: 32 :: rest).take (d.length + 2) = d ++ [46, 32] := by
    rw [List.take_append]
    rfl
  simp [ht, isSpace]

theorem numberedLine_digits (d rest : Str) (hd : d ≠ []) (hdig : ∀ c ∈ d, isDigit c = true)
    (hrest : ∀ c ∈ rest, isLineTerminator c = false) :
    numberedLine (d ++ 46 :: 32 :: rest) = some (d ++ [46, 32], rest) := by
  unfold numberedLine
  rw [numberPrefix_digits d rest hd hdig]
  have hdrop : (d ++ 46 :: 32 :: rest).drop (d.length + 2) = rest := by
    rw [List.drop_append]
    rfl
  simp only [hdrop]
  rw [if_pos]
  rw [List.all_eq_true]
  intro c hc
  simp [hrest c hc]

theorem boldTitle_colon (T rest : Str) (hT : T ≠ []) (hstar : ∀ c ∈ T, c ≠ 42)
    (hrest : ∀ c ∈ rest, isLineTerminator c = false)
    (hhead : ∀ c, rest.head? = some c → isSpace c = false) (sp : Str)
    (hsp : ∀ c ∈ sp, isSpace c = true) :
    boldTitle (42 :: 42 :: (T ++ 42 :: 42 :: 58 :: (sp ++ rest)))
      = some (42 :: 42 :: (T ++ [42, 42, 58]), rest) := by
  unfold boldTitle
  have hsw : startsWith (42 :: 42 :: (T ++ 42 :: 42 :: 58 :: (sp ++ rest))) (js "**") = true :=
    startsWith_append [42, 42] _
  have htw : (T ++ 42 :: 42 :: 58 :: (sp ++ rest)).takeWhile (fun c => decide (c ≠ 42)) = T :=
    takeWhile_append_stop _ T _ 42 (fun c hc => by simp [hstar c hc]) (by decide)
  have hdrop : (42 :: 42 :: (T ++ 42 :: 42 :: 58 :: (sp ++ rest))).drop (2 + T.length)
      = 42 :: 42 :: 58 :: (sp ++ rest) := by
    have e : 2 + T.length = T.length + 1 + 1 := by omega
    rw [e, List.drop_succ_cons, List.drop_succ_cons, List.drop_left]
  have hsw2 : startsWith (42 :: 42 :: 58 :: (sp ++ rest)) (js "**") = true :=
    startsWith_append [42, 42] _
  have hsw3 : startsWith (58 :: (sp ++ rest)) (js ":") = true :=
    startsWith_append [58] _
  have hdw : (sp ++ rest).dropWhile isSpace = rest := by
    rw [List.dropWhile_append, if_pos]
    · cases rest with
      | nil => rfl
      | cons c cs => exact List.dropWhile_cons_of_neg (by simp [hhead c rfl])
    · rw [List.isEmpty_iff, List.dropWhile_eq_nil_iff]
      exact hsp
  have htake : (42 :: 42 :: (T ++ 42 :: 42 :: 58 :: (sp ++ rest))).take (2 + T.length + 2 + 1)
      = 42 :: 42 :: (T ++ [42, 42, 58]) := by
    have e : 2 + T.length + 2 + 1 = (T.length + 3) + 1 + 1 := by omega
    rw [e, List.take_succ_cons, List.take_succ_cons, List.take_append]
    rfl
  have hall : rest.all (fun c => !isLineTerminator c) = true := by
    rw [List.all_eq_true]
    intro c hc
    simp [hrest c hc]
  rw [if_pos hsw]
  simp only [List.drop_succ_cons, List.drop_zero, htw, hdrop]
  rw [if_pos ⟨hT, hsw2⟩]
  simp only [List.drop_succ_cons, List.drop_zero, hsw3, if_true, hdw, hall, htake]

theorem lit_stars_none (c : Nat) (t : Str) (h : c ≠ 42) : lit (js "**") (c :: t) = none := by
  have : startsWith (c :: t) (js "**") = false := startsWith_cons_ne c 42 t [42] h
  simp [lit, this]

theorem strip_stars_title (T : Str) (hstar : ∀ c ∈ T, c ≠ 42) :
    replaceAll (lit (js "**")) (fun _ => []) (42 :: 42 :: (T ++ [42, 42, 58])) = T ++ [58] := by
  have h0 : ∀ t, lit (js "**") (42 :: 42 :: t) = some (2, js "**") := fun t => by
    have : startsWith (42 :: 42 :: t) (js "**") = true := startsWith_append [42, 42] t
    simp only [lit, this, if_true]
    rfl
  rw [replaceAll_cons_some _ _ 42 _ 2 _ (h0 _)]
  simp only [Nat.add_one_sub_one, List.drop_succ_cons, List.drop_zero, List.nil_append]
  rw [replaceAll_append_of_head _ _ T _ (fun c hc t => lit_stars_none c t (hstar c hc))]
  rw [replaceAll_cons_some _ _ 42 _ 2 _ (h0 _)]
  simp only [Nat.add_one_sub_one, List.drop_succ_cons, List.drop_zero, List.nil_append]
  rw [replaceAll_cons_none _ _ 58 [] (lit_stars_none 58 [] (by decide))]
  rfl

theorem formatLine_numbered_bold (raw d T D sp : Str)
    (hraw : trim raw = d ++ 46 :: 32 :: 42 :: 42 :: (T ++ 42 :: 42 :: 58 :: (sp ++ D)))
    (hsp : ∀ c ∈ sp, isSpace c = true)
    (hd : d ≠ []) (hdig : ∀ c ∈ d, isDigit c = true)
    (hT : T ≠ []) (hTs : ∀ c ∈ T, c ≠ 42) (hTl : ∀ c ∈ T, isLineTerminator c = false)
    (hspl : ∀ c ∈ sp, isLineTerminator c = false)
    (hDl : ∀ c ∈ D, isLineTerminator c = false)
    (hDh : ∀ c, D.head? = some c → isSpace c = false) :
    formatLine raw
      = js "<div class=\"numbered-item\">\n              <span class=\"item-number\">"
          ++ (d ++ js ". ")
          ++ js "</span>\n              <div class=\"item-content\">\n                <strong class=\"item-title\">"
          ++ (T ++ js ":")
          ++ js "</strong>\n                "
          ++ (if D = [] then []
              else js "<span class=\"item-description\">" ++ wrapLongText D ++ js "</span>")
          ++ js "\n              </div>\n            </div>" := by
  obtain ⟨c, d', rfl⟩ := List.exists_cons_of_ne_nil hd
  have hc : isDigit c = true := hdig c (List.mem_cons_self _ _)
  have hc35 : c ≠ 35 := by
    rintro rfl
    simp [isDigit] at hc
  have h1 : ¬ (c :: d' ++ 46 :: 32 :: 42 :: 42 :: (T ++ 42 :: 42 :: 58 :: (sp ++ D)) = []) := by
    simp
  have h2 : startsWith (c :: d' ++ 46 :: 32 :: 42 :: 42 :: (T ++ 42 :: 42 :: 58 :: (sp ++ D)))
      (js "### ") = false := startsWith_cons_ne c 35 _ [35, 35, 32] hc35
  have h3 : startsWith (c :: d' ++ 46 :: 32 :: 42 :: 42 :: (T ++ 42 :: 42 :: 58 :: (sp ++ D)))
      (js "## ") = false := startsWith_cons_ne c 35 _ [35, 32] hc35
  have hcontent : ∀ x ∈ 42 :: 42 :: (T ++ 42 :: 42 :: 58 :: (sp ++ D)),
      isLineTerminator x = false := by
    intro x hx
    simp only [List.mem_cons, List.mem_append] at hx
    rcases hx with rfl | rfl | hx | rfl | rfl | rfl | hx | hx
    · rfl
    · rfl
    · exact hTl x hx
    · rfl
    · rfl
    · rfl
    · exact hspl x hx
    · exact hDl x hx
  have h4 := numberPrefix_digits (c :: d') (42 :: 42 :: (T ++ 42 :: 42 :: 58 :: (sp ++ D)))
    hd hdig
  have h5 := numberedLine_digits (c :: d') (42 :: 42 :: (T ++ 42 :: 42 :: 58 :: (sp ++ D)))
    hd hdig hcontent
  have h6 := boldTitle_colon T D hT hTs hDl hDh sp hsp
  have h7 := strip_stars_title T hTs
  unfold formatLine
  simp only [hraw]
  rw [if_neg h1, h2, h3, h4, h5]
  simp only [Bool.false_eq_true, if_false, Option.isSome_some, if_true, h6, h7]
  rfl

/-- C5: a numbered line with a bold title.  For a non-empty digit string `d`, a
non-empty title `T` without `*` and without line terminators, and a description
`D` without line terminators and without leading or trailing whitespace, the
text `d. **T**: D` is formatted to exactly one numbered-item block, with no
paragraph and no heading: its item-number is `d` followed by the dot and the
space, its item-title is `T` followed by the colon, and its item-description is
`wrapLongText D`, the description span being left out when `D` is empty. -/
theorem formatBotResponse_numbered_bold (d T D : Str)
    (hd : d ≠ []) (hdig : ∀ c ∈ d, isDigit c = true)
    (hT : T ≠ []) (hTs : ∀ c ∈ T, c ≠ 42) (hTl : ∀ c ∈ T, isLineTerminator c = false)
    (hDl : ∀ c ∈ D, isLineTerminator c = false)
    (hDh : ∀ c, D.head? = some c → isSpace c = false)
    (hDt : ∀ c, D.getLast? = some c → isSpace c = false) :
    formatBotResponse (d ++ js ". **" ++ T ++ js "**: " ++ D)
      = js "<div class=\"numbered-item\">\n              <span class=\"item-number\">"
          ++ (d ++ js ". ")
          ++ js "</span>\n              <div class=\"item-content\">\n                <strong class=\"item-title\">"
          ++ (T ++ js ":")
          ++ js "</strong>\n                "
          ++ (if D = [] then []
              else js "<span class=\"item-description\">" ++ wrapLongText D ++ js "</span>")
          ++ js "\n              </div>\n            </div>" := by
  have e1 : js ". **" = [46, 32, 42, 42] := by decide
  have e2 : js "**: " = [42, 42, 58, 32] := by decide
  have hnl : (10 : Nat) ∉ d ++ js ". **" ++ T ++ js "**: " ++ D := by
    rw [e1, e2]
    simp only [List.mem_append, not_or]
    refine ⟨⟨⟨⟨?_, by decide⟩, ?_⟩, by decide⟩, ?_⟩
    · intro h
      exact absurd (hdig 10 h) (by decide)
    · intro h
      exact absurd (hTl 10 h) (by decide)
    · intro h
      exact absurd (hDl 10 h) (by decide)
  obtain ⟨c, d', hcd⟩ := List.exists_cons_of_ne_nil hd
  have hc : isSpace c = false :=
    isDigit_not_space c (hdig c (hcd ▸ List.mem_cons_self _ _))
  have hline : ∃ sp : Str, (∀ x ∈ sp, isSpace x = true) ∧
      (∀ x ∈ sp, isLineTerminator x = false) ∧
      trim (d ++ js ". **" ++ T ++ js "**: " ++ D)
        = d ++ 46 :: 32 :: 42 :: 42 :: (T ++ 42 :: 42 :: 58 :: (sp ++ D)) := by
    rw [e1, e2]
    rcases List.eq_nil_or_concat D with hD | ⟨D', x, hD⟩
    · refine ⟨[], by simp, by simp, ?_⟩
      subst hD
      subst hcd
      have := trim_trailing_space c 58 (d' ++ 46 :: 32 :: 42 :: 42 :: (T ++ [42, 42])) hc
        (by decide)
      simpa using this
    · refine ⟨[32], by simp [isSpace], by simp [isLineTerminator], ?_⟩
      have hx : isSpace x = false := hDt x (by rw [hD]; simp)
      subst hD
      subst hcd
      have := trim_of_ends
        (c :: (d' ++ 46 :: 32 :: 42 :: 42 :: (T ++ 42 :: 42 :: 58 :: 32 :: D')) ++ [x]) c x
        (d' ++ 46 :: 32 :: 42 :: 42 :: (T ++ 42 :: 42 :: 58 :: 32 :: D')) rfl hc hx
      simpa using this
  obtain ⟨sp, hsp, hspl, htrim⟩ := hline
  have hfl := formatLine_numbered_bold _ d T D sp htrim hsp hd hdig hT hTs hTl hspl hDl hDh
  have hsp : structuredPass (d ++ js ". **" ++ T ++ js "**: " ++ D)
      = formatLine (d ++ js ". **" ++ T ++ js "**: " ++ D) := by
    unfold structuredPass
    rw [split_of_not_mem 10 _ hnl]
    rfl
  have hinc : includes (structuredPass (d ++ js ". **" ++ T ++ js "**: " ++ D))
      (js "numbered-item") = true := by
    rw [hsp, hfl]
    simp only [List.append_assoc]
    exact includes_append_left _ _ _ (by decide)
  unfold formatBotResponse
  simp only [hinc, Bool.true_eq_false, false_and, if_false]
  rw [hsp, hfl]

set_option maxRecDepth 100000 in
/-- C5 (witness): `1. **Ingredients**: sugar, cocoa` gives the number `1. `, the
title `Ingredients:` and the description `sugar, cocoa`. -/
theorem formatBotResponse_numbered_bold_witness :
    formatBotResponse (js "1" ++ js ". **" ++ js "Ingredients" ++ js "**: " ++ js "sugar, cocoa")
      = js "<div class=\"numbered-item\">\n              <span class=\"item-number\">"
          ++ (js "1" ++ js ". ")
          ++ js "</span>\n              <div class=\"item-content\">\n                <strong class=\"item-title\">"
          ++ (js "Ingredients" ++ js ":")
          ++ js "</strong>\n                "
          ++ (if js "sugar, cocoa" = [] then []
              else js "<span class=\"item-description\">" ++ wrapLongText (js "sugar, cocoa")
                ++ js "</span>")
          ++ js "\n              </div>\n            </div>" ∧
    js "1" ++ js ". **" ++ js "Ingredients" ++ js "**: " ++ js "sugar, cocoa"
      = js "1. **Ingredients**: sugar, cocoa" ∧
    wrapLongText (js "sugar, cocoa") = js "sugar, cocoa" :=
  ⟨formatBotResponse_numbered_bold (js "1") (js "Ingredients") (js "sugar, cocoa")
    (by decide) (by decide) (by decide) (by decide) (by decide) (by decide) (by decide)
    (by decide), by decide, by decide⟩

/-! ## Source de-duplication -/

theorem uniqueSources_concat (l : List Str) (x : Str) :
    uniqueSources (l ++ [x]) = setAdd (uniqueSources l) x := by
  simp [uniqueSources, List.foldl_append]

theorem mem_setAdd (u : List Str) (x s : Str) : s ∈ setAdd u x ↔ s ∈ u ∨ s = x := by
  unfold setAdd
  split
  · next h =>
    constructor
    · exact Or.inl
    · rintro (h1 | rfl)
      · exact h1
      · exact h
  · simp

theorem mem_uniqueSources (l : List Str) (s : Str) : s ∈ uniqueSources l ↔ s ∈ l := by
  induction l using List.reverseRecOn with
  | nil => simp [uniqueSources]
  | append_singleton l x ih =>
    rw [uniqueSources_concat, mem_setAdd, ih]
    simp

theorem nodup_uniqueSources (l : List Str) : (uniqueSources l).Nodup := by
  induction l using List.reverseRecOn with
  | nil => simp [uniqueSources]
  | append_singleton l x ih =>
    rw [uniqueSources_concat]
    unfold setAdd
    split
    · exact ih
    · next h =>
      rw [List.nodup_append]
      refine ⟨ih, List.nodup_singleton x, ?_⟩
      intro a ha hx
      rw [List.mem_singleton] at hx
      exact h (hx ▸ ha)

theorem indexOf_append_mem (l m : List Str) (a : Str) (h : a ∈ l) :
    (l ++ m).indexOf a = l.indexOf a := by
  induction l with
  | nil => simp at h
  | cons x xs ih =>
    rw [List.cons_append, List.indexOf_cons, List.indexOf_cons]
    by_cases hx : x = a
    · simp [hx]
    · have hxs : a ∈ xs := by
        rcases List.mem_cons.1 h with h | h
        · exact absurd h.symm hx
        · exact h
      have hb : (x == a) = false := beq_eq_false_iff_ne.2 hx
      rw [hb, ih hxs]

theorem indexOf_concat_not_mem (l : List Str) (a : Str) (h : a ∉ l) :
    (l ++ [a]).indexOf a = l.length := by
  induction l with
  | nil => simp [List.indexOf_cons]
  | cons x xs ih =>
    have hx : x ≠ a := fun e => h (e ▸ List.mem_cons_self _ _)
    have hxs : a ∉ xs := fun hm => h (List.mem_cons_of_mem _ hm)
    have hb : (x == a) = false := beq_eq_false_iff_ne.2 hx
    rw [List.cons_append, List.indexOf_cons, hb, ih hxs]
    rfl

theorem indexOf_lt_of_mem (l : List Str) (a : Str) (h : a ∈ l) : l.indexOf a < l.length := by
  induction l with
  | nil => simp at h
  | cons x xs ih =>
    rw [List.indexOf_cons]
    by_cases hx : x = a
    · simp [hx]
    · have hxs : a ∈ xs := by
        rcases List.mem_cons.1 h with h | h
        · exact absurd h.symm hx
        · exact h
      have hb : (x == a) = false := beq_eq_false_iff_ne.2 hx
      have := ih hxs
      rw [hb]
      simp only [cond_false, List.length_cons]
      omega

theorem first_occurrence_uniqueSources (l : List Str) :
    (uniqueSources l).Pairwise (fun a b => l.indexOf a < l.indexOf b) := by
  induction l using List.reverseRecOn with
  | nil => simp [uniqueSources]
  | append_singleton l x ih =>
    have hold : (uniqueSources l).Pairwise
        (fun a b => (l ++ [x]).indexOf a < (l ++ [x]).indexOf b) := by
      have hmem : ∀ a ∈ uniqueSources l, a ∈ l := fun a ha => (mem_uniqueSources l a).1 ha
      refine (List.Pairwise.and_mem.1 ih).imp ?_
      rintro a b ⟨ha, hb, hlt⟩
      rw [indexOf_append_mem l [x] a (hmem a ha), indexOf_append_mem l [x] b (hmem b hb)]
      exact hlt
    rw [uniqueSources_concat]
    unfold setAdd
    split
    · exact hold
    · next h =>
      have hx : x ∉ l := fun hm => h ((mem_uniqueSources l x).2 hm)
      rw [List.pairwise_append]
      refine ⟨hold, List.pairwise_singleton _ _, ?_⟩
      intro a ha b hb
      rw [List.mem_singleton] at hb
      subst hb
      have hal : a ∈ l := (mem_uniqueSources l a).1 ha
      rw [indexOf_append_mem l [b] a hal, indexOf_concat_not_mem l b hx]
      exact indexOf_lt_of_mem l a hal

/-- C8: the list `uniqueSources` of `addBotMessage` has no two equal strings,
has exactly the strings of the input, and keeps them in the order of their
first occurrence in the input; the displayed count is its length; the sources
`https://a.com`, `https://a.com`, `https://b.com` give `https://a.com`,
`https://b.com`. -/
theorem uniqueSources_dedup :
    (∀ sources : List Str,
      (uniqueSources sources).Nodup ∧
      (∀ s, s ∈ uniqueSources sources ↔ s ∈ sources) ∧
      (uniqueSources sources).Pairwise
        (fun a b => sources.indexOf a < sources.indexOf b) ∧
      sourceCount sources = (uniqueSources sources).length) ∧
    uniqueSources [js "https://a.com", js "https://a.com", js "https://b.com"]
      = [js "https://a.com", js "https://b.com"] :=
  ⟨fun sources => ⟨nodup_uniqueSources sources, mem_uniqueSources sources,
    first_occurrence_uniqueSources sources, rfl⟩, by decide⟩

/-! ## `decodeURIComponent` -/

theorem decodeURIComponent_nil : decodeURIComponent [] = .ok [] := rfl

theorem decodeURIComponent_cons (c : Nat) (s : Str) (h : c ≠ 37) :
    decodeURIComponent (c :: s) = (decodeURIComponent s).map (fun r => c :: r) := by
  unfold decodeURIComponent
  simp only [List.length_cons]
  rw [decodeLoop, if_pos h]

theorem decodeURIComponent_append (a b : Str) (h : 37 ∉ a) :
    decodeURIComponent (a ++ b) = (decodeURIComponent b).map (fun r => a ++ r) := by
  induction a with
  | nil =>
    cases hb : decodeURIComponent b <;> simp [Except.map, hb]
  | cons c cs ih =>
    have hc : c ≠ 37 := fun e => h (e ▸ List.mem_cons_self _ _)
    rw [List.cons_append, decodeURIComponent_cons c _ hc,
      ih (fun hm => h (List.mem_cons_of_mem _ hm))]
    cases hb : decodeURIComponent b <;> simp [Except.map]

/-- A string without `%` is decoded to itself. -/
theorem decodeURIComponent_of_no_percent (s : Str) (h : 37 ∉ s) :
    decodeURIComponent s = .ok s := by
  have := decodeURIComponent_append s [] h
  rw [List.append_nil, decodeURIComponent_nil] at this
  rw [this]
  simp [Except.map]

set_option maxRecDepth 100000 in
/-- C1: `cleanSourceUrl` throws on a malformed percent-escape.  For the sources
`%` and `100%` the unguarded call of `decodeURIComponent` raises a `URIError`,
which leaves `cleanSourceUrl`, so the function returns no string. -/
theorem cleanSourceUrl_throws :
    decodeURIComponent (js "%") = .error .URIError ∧
    cleanSourceUrl (js "%") = .error .URIError ∧
    cleanSourceUrl (js "100%") = .error .URIError ∧
    ¬ ∃ cleaned, cleanSourceUrl (js "%") = .ok cleaned := by
  refine ⟨by decide, by decide, by decide, ?_⟩
  rintro ⟨cleaned, h⟩
  have h2 : cleanSourceUrl (js "%") = .error .URIError := by decide
  rw [h2] at h
  cases h

/-! ## Decoding what `encodeURIComponent` produced -/

theorem percentEncode_cons (b : Nat) (bs : List Nat) :
    percentEncode (b :: bs) = 37 :: hexDigit (b / 16) :: hexDigit (b % 16) :: percentEncode bs := by
  simp [percentEncode]

theorem percentEncode_length (bs : List Nat) : (percentEncode bs).length = 3 * bs.length := by
  induction bs with
  | nil => rfl
  | cons b bs ih =>
    rw [percentEncode_cons]
    simp only [List.length_cons, ih]
    omega

theorem replaceFirst_of_none (m : Matcher) (rep : Str → Str) (s : Str)
    (h : ∀ suf, suf <:+ s → m suf = none) : replaceFirst m rep s = s := by
  induction s with
  | nil => rfl
  | cons c cs ih =>
    rw [replaceFirst, h _ (List.suffix_refl _)]
    simp only []
    rw [ih (fun suf hs => h suf (hs.trans (List.suffix_cons c cs)))]

theorem firstMatch_of_none (m : Matcher) (s : Str)
    (h : ∀ suf, suf <:+ s → m suf = none) : firstMatch m s = none := by
  induction s with
  | nil => rfl
  | cons c cs ih =>
    rw [firstMatch, h _ (List.suffix_refl _)]
    simp only []
    exact ih (fun suf hs => h suf (hs.trans (List.suffix_cons c cs)))

theorem replaceAll_lit_of_not_mem (p s : Str) (rep : Str → Str) (x : Nat) (hp : x ∈ p)
    (hs : x ∉ s) : replaceAll (lit p) rep s = s :=
  replaceAll_of_none _ _ _ (fun _ hsuf => lit_none_of_not_mem p _ x hp (fun hm => hs (hsuf.subset hm)))

theorem replaceFirst_lit_of_not_mem (p s : Str) (rep : Str → Str) (x : Nat) (hp : x ∈ p)
    (hs : x ∉ s) : replaceFirst (lit p) rep s = s :=
  replaceFirst_of_none _ _ _ (fun _ hsuf => lit_none_of_not_mem p _ x hp (fun hm => hs (hsuf.subset hm)))

theorem rutSuffix_none_of_head (c : Nat) (t : Str) (h : c ≠ 38) : rutSuffix (c :: t) = none := by
  unfold rutSuffix
  have : startsWith (c :: t) (js "&rut=") = false := startsWith_cons_ne c 38 t _ h
  rw [this]
  rfl

theorem rutSuffix_none_of_not_mem (s : Str) (h : 38 ∉ s) : rutSuffix s = none := by
  cases s with
  | nil => rfl
  | cons c t => exact rutSuffix_none_of_head c t (fun e => h (e ▸ List.mem_cons_self _ _))

/-- The six global rewrites of residual escapes leave a string without `%`
unchanged. -/
theorem residual_escapes_of_no_percent (s : Str) (h : 37 ∉ s) :
    replaceAll (lit (js "%26")) (fun _ => js "&")
      (replaceAll (lit (js "%3D")) (fun _ => js "=")
        (replaceAll (lit (js "%3F")) (fun _ => js "?")
          (replaceAll (lit (js "%2E")) (fun _ => js ".")
            (replaceAll (lit (js "%2F")) (fun _ => js "/")
              (replaceAll (lit (js "%3A")) (fun _ => js ":") s))))) = s := by
  rw [replaceAll_lit_of_not_mem (js "%3A") s _ 37 (by decide) h,
    replaceAll_lit_of_not_mem (js "%2F") s _ 37 (by decide) h,
    replaceAll_lit_of_not_mem (js "%2E") s _ 37 (by decide) h,
    replaceAll_lit_of_not_mem (js "%3F") s _ 37 (by decide) h,
    replaceAll_lit_of_not_mem (js "%3D") s _ 37 (by decide) h,
    replaceAll_lit_of_not_mem (js "%26") s _ 37 (by decide) h]

/-- The rewrites leave a string without `%`, `&` and `?` unchanged. -/
theorem fixEncoding_of_plain (s : Str) (h37 : 37 ∉ s) (h38 : 38 ∉ s) (h63 : 63 ∉ s) :
    fixEncoding s = s := by
  unfold fixEncoding
  rw [replaceFirst_lit_of_not_mem _ _ _ 37 (by decide) h37]
  rw [replaceFirst_of_none rutSuffix _ s
    (fun suf hsuf => rutSuffix_none_of_not_mem suf (fun hm => h38 (hsuf.subset hm)))]
  rw [replaceFirst_lit_of_not_mem _ _ _ 63 (by decide) h63]
  exact residual_escapes_of_no_percent s h37

theorem urlTarget_none_of_no_colon (s : Str) (h : 58 ∉ s) : urlTarget s = none := by
  unfold urlTarget
  cases hs : schemeLength s with
  | none => rfl
  | some n => exact absurd (schemeLength_colon s n hs) h

/-- A string without `%`, `&`, `?` and `:` that does not start with `http` is
cleaned by putting `https://` in front of it. -/
theorem cleanSourceUrl_of_plain (s : Str) (hne : s ≠ [])
    (h37 : 37 ∉ s) (h38 : 38 ∉ s) (h63 : 63 ∉ s) (h58 : 58 ∉ s)
    (hhttp : startsWith s (js "http") = false) :
    cleanSourceUrl s = .ok (js "https://" ++ s) := by
  unfold cleanSourceUrl
  rw [if_neg hne, decodeURIComponent_of_no_percent s h37]
  simp only [fixEncoding_of_plain s h37 h38 h63]
  rw [firstMatch_of_none urlTarget s
    (fun suf hsuf => urlTarget_none_of_no_colon suf (fun hm => h58 (hsuf.subset hm)))]
  simp only [hhttp, Bool.false_eq_true, if_false]

/-! ## Redirect wrappers -/

theorem startsWith_append_cases (x t p : Str) (h : startsWith (x ++ t) p = true) :
    startsWith x p = true ∨ (x.length < p.length ∧ startsWith t (p.drop x.length) = true) := by
  induction x generalizing p with
  | nil =>
    cases p with
    | nil => exact Or.inl rfl
    | cons b p => exact Or.inr ⟨by simp, by simpa using h⟩
  | cons a x ih =>
    cases p with
    | nil => exact Or.inl rfl
    | cons b p =>
      simp only [List.cons_append, startsWith, Bool.and_eq_true, beq_iff_eq] at h
      rcases ih p h.2 with h1 | ⟨h1, h2⟩
      · left
        simp [startsWith, h.1, h1]
      · right
        exact ⟨by simpa using h1, by simpa using h2⟩

theorem includes_false_suffix (w p sfx : Str) (h : includes w p = false) (hs : sfx <:+ w) :
    startsWith sfx p = false := by
  induction w with
  | nil =>
    have : sfx = [] := List.suffix_nil.1 hs
    subst this
    simpa [includes] using h
  | cons c cs ih =>
    simp only [includes, Bool.or_eq_false_iff] at h
    rcases List.suffix_cons_iff.1 hs with rfl | hs2
    · exact h.1
    · exact ih h.2 hs2

theorem schemeLength_https (x : Str) : schemeLength (js "https://" ++ x) = some 8 := by
  have h1 : startsWith (js "https://" ++ x) (js "https://") = true := startsWith_append _ _
  simp [schemeLength, h1]

theorem isPlainHost_chars (h : Str) (hh : isPlainHost h = true) :
    ∀ c ∈ h, (97 ≤ c ∧ c ≤ 122) ∨ (48 ≤ c ∧ c ≤ 57) ∨ c = 45 ∨ c = 46 := by
  unfold isPlainHost at hh
  simp only [Bool.and_eq_true, List.all_eq_true] at hh
  intro c hc
  have := hh.1.1 c hc
  simp only [isDigit, Bool.or_eq_true, Bool.and_eq_true, decide_eq_true_eq, beq_iff_eq] at this
  omega

theorem isPlainPath_chars (p : Str) (hp : isPlainPath p = true) :
    ∀ c ∈ p, (97 ≤ c ∧ c ≤ 122) ∨ (65 ≤ c ∧ c ≤ 90) ∨ (48 ≤ c ∧ c ≤ 57) ∨ c = 45 ∨ c = 46 ∨
      c = 95 ∨ c = 126 ∨ c = 47 := by
  unfold isPlainPath at hp
  simp only [Bool.and_eq_true, List.all_eq_true] at hp
  intro c hc
  have := hp.1.1 c hc
  simp only [isAlnum, Bool.or_eq_true, Bool.and_eq_true, decide_eq_true_eq, beq_iff_eq] at this
  omega

theorem isPlainPath_head (p : Str) (hp : isPlainPath p = true) :
    p = [] ∨ ∃ q, p = 47 :: q := by
  unfold isPlainPath at hp
  simp only [Bool.and_eq_true, Bool.or_eq_true, beq_iff_eq] at hp
  rcases hp.1.2 with h | h
  · exact Or.inl h
  · obtain ⟨t, ht⟩ := (startsWith_iff _ _).1 h
    exact Or.inr ⟨t, ht⟩

/-- The embedded parser on `https://`, a plain host and a plain path: the host
and the path are returned as they are written. -/
theorem newURL_plain (h p : Str) (hh : isPlainHost h = true) (hp : isPlainPath p = true) :
    newURL (js "https://" ++ (h ++ p))
      = .url { hostname := h, pathname := if p = [] then js "/" else p } := by
  have hhc := isPlainHost_chars h hh
  have hpc := isPlainPath_chars p hp
  have hcolon : 58 ∈ js "https://" ++ (h ++ p) := List.mem_append_left _ (by decide)
  have hhost : (h ++ p).takeWhile (fun c => c != 47 && c != 63 && c != 35) = h := by
    have hall : ∀ c ∈ h, (c != 47 && c != 63 && c != 35) = true := by
      intro c hc
      have := hhc c hc
      simp only [Bool.and_eq_true, bne_iff_ne]
      omega
    rcases isPlainPath_head p hp with rfl | ⟨q, rfl⟩
    · rw [List.append_nil]
      exact takeWhile_eq_self _ h hall
    · exact takeWhile_append_stop _ h q 47 hall rfl
  have hpath : p.takeWhile (fun c => c != 63 && c != 35) = p := by
    apply takeWhile_eq_self
    intro c hc
    have := hpc c hc
    simp only [Bool.and_eq_true, bne_iff_ne]
    omega
  have hall : (js "https://" ++ (h ++ p)).all (fun c => decide (0x21 ≤ c) && decide (c ≤ 0x7E))
      = true := by
    rw [List.all_eq_true]
    intro c hc
    simp only [Bool.and_eq_true, decide_eq_true_eq]
    have hlit : ∀ x ∈ js "https://", 33 ≤ x ∧ x ≤ 126 := by decide
    rcases List.mem_append.1 hc with hc | hc
    · exact hlit c hc
    · rcases List.mem_append.1 hc with hc | hc
      · have := hhc c hc
        omega
      · have := hpc c hc
        omega
  have hdrop : (js "https://" ++ (h ++ p)).drop 8 = h ++ p := List.drop_left (js "https://") _
  unfold newURL
  rw [if_neg (not_not.2 hcolon), schemeLength_https]
  simp only [hdrop, hhost, List.drop_left, hpath, hall, hh, hp, Bool.and_self, if_true]

/-- A plain host followed by a plain path has none of `%`, `&`, `?` and `:`. -/
theorem plain_no_special (h p : Str) (hh : isPlainHost h = true) (hp : isPlainPath p = true) :
    37 ∉ h ++ p ∧ 38 ∉ h ++ p ∧ 63 ∉ h ++ p ∧ 58 ∉ h ++ p := by
  have hhc := isPlainHost_chars h hh
  have hpc := isPlainPath_chars p hp
  have key : ∀ x, x = 37 ∨ x = 38 ∨ x = 63 ∨ x = 58 → x ∉ h ++ p := by
    intro x hx hm
    rcases List.mem_append.1 hm with hm | hm
    · have := hhc x hm
      omega
    · have := hpc x hm
      omega
  exact ⟨key 37 (by omega), key 38 (by omega), key 63 (by omega), key 58 (by omega)⟩

/-! ## `getDisplayUrl` -/

theorem split_ne_nil (sep : Nat) (s : Str) : split sep s ≠ [] := by
  induction s with
  | nil => simp [split]
  | cons c cs ih =>
    unfold split
    split
    · simp
    · split <;> simp

theorem split_append_sep (sep : Nat) (a b : Str) :
    split sep (a ++ sep :: b) = split sep a ++ split sep b := by
  induction a with
  | nil => simp [split]
  | cons c cs ih =>
    by_cases hc : c = sep
    · simp [split, hc, ih]
    · rw [List.cons_append, split, if_neg hc, ih]
      obtain ⟨l, ls, hl⟩ := List.exists_cons_of_ne_nil (split_ne_nil sep cs)
      rw [hl]
      simp [split, hc, hl]

theorem replaceFirst_lit_of_not_includes (p s : Str) (h : includes s p = false) :
    replaceFirst (lit p) (fun _ => []) s = s := by
  apply replaceFirst_of_none
  intro suf hsuf
  unfold lit
  rw [includes_false_suffix s p suf h hsuf]
  rfl

/-- The label of a URL with a plain host and a plain path that ends in the
segment `s`. -/
theorem getDisplayUrl_plain (h pre s : Str) (hh : isPlainHost h = true)
    (hp : isPlainPath (pre ++ 47 :: s) = true) (hs : 47 ∉ s) (hne : s ≠ [])
    (hidx : s ≠ js "index.html") :
    getDisplayUrl (js "https://" ++ (h ++ (pre ++ 47 :: s)))
      = some
        ((if includes (replaceFirst (lit (js "www.")) (fun _ => []) h) (js "nestle") then
            if includes (replaceFirst (lit (js "www.")) (fun _ => []) h) (js "madewithnestle")
            then js "Made with Nestlé"
            else js "Nestlé Official"
          else replaceFirst (lit (js "www.")) (fun _ => []) h)
          ++ (if s.length < 30 then
                js " - "
                  ++ capitalizeWords false (replaceAll (lit (js "-")) (fun _ => js " ") s)
              else [])) := by
  have hparts : ((split 47 (pre ++ 47 :: s)).filter
      (fun part => part != [] && part != js "index.html")).getLast? = some s := by
    rw [split_append_sep, split_of_not_mem 47 s hs, List.filter_append]
    have hf : [s].filter (fun part => part != [] && part != js "index.html") = [s] := by
      simp [hne, hidx]
    rw [hf, List.getLast?_append]
    rfl
  unfold getDisplayUrl
  rw [newURL_plain h _ hh hp]
  simp only [List.append_eq_nil, reduceCtorEq, and_false, if_false, hparts]
  split <;> simp

/-! ## Display labels -/

theorem not_startsWith_http_of_slash (h rest : Str) (hh : startsWith h (js "http") = false) :
    startsWith (h ++ 47 :: rest) (js "http") = false := by
  have key : ∀ k, k < 4 → startsWith (47 :: rest) ((js "http").drop k) = false := by
    intro k hk
    interval_cases k <;> rfl
  cases hsw : startsWith (h ++ 47 :: rest) (js "http") with
  | false => rfl
  | true =>
    rcases startsWith_append_cases _ _ _ hsw with h1 | ⟨hl, h1⟩
    · rw [hh] at h1
      cases h1
    · rw [key h.length hl] at h1
      cases h1

set_option maxRecDepth 100000 in
/-- C3 (counterexample): the path of the `plainhost.com` example is longer than
thirty code units, but its last segment `total` is short, and the label is
`plainhost.com - Total`, not the host alone. -/
theorem getDisplayUrl_plainhost_total :
    cleanSourceUrl
        (js "plainhost.com/a/very/long/path/segment/that/exceeds/thirty/characters/total")
      = .ok (js "https://plainhost.com/a/very/long/path/segment/that/exceeds/thirty/characters/total") ∧
    getDisplayUrl
        (js "https://plainhost.com/a/very/long/path/segment/that/exceeds/thirty/characters/total")
      = some (js "plainhost.com - Total") ∧
    getDisplayUrl
        (js "https://plainhost.com/a/very/long/path/segment/that/exceeds/thirty/characters/total")
      ≠ some (js "plainhost.com") := by
  decide

/-- C3 (amended): the label is the host only when the last path segment has
thirty or more code units.  For a plain host `h` that contains neither `www.`
nor `nestle` and does not start with `http`, and a plain path that ends in a
segment `s` of at least 30 code units, `cleanSourceUrl` puts `https://` in front
of the source and `getDisplayUrl` of the result is `h`. -/
theorem getDisplayUrl_long_last_segment (h pre s : Str)
    (hh : isPlainHost h = true) (hp : isPlainPath (pre ++ 47 :: s) = true) (hs : 47 ∉ s)
    (hlen : 30 ≤ s.length)
    (hwww : includes h (js "www.") = false) (hbrand : includes h (js "nestle") = false)
    (hhttp : startsWith h (js "http") = false) :
    cleanSourceUrl (h ++ (pre ++ 47 :: s)) = .ok (js "https://" ++ (h ++ (pre ++ 47 :: s))) ∧
    getDisplayUrl (js "https://" ++ (h ++ (pre ++ 47 :: s))) = some h := by
  obtain ⟨h37, h38, h63, h58⟩ := plain_no_special h _ hh hp
  have hne : s ≠ [] := by
    intro e
    rw [e] at hlen
    simp at hlen
  have hidx : s ≠ js "index.html" := by
    intro e
    rw [e] at hlen
    have : (js "index.html").length = 10 := rfl
    omega
  have hstart : startsWith (h ++ (pre ++ 47 :: s)) (js "http") = false := by
    rcases isPlainPath_head _ hp with hnil | ⟨q, hq⟩
    · simp at hnil
    · rw [hq]
      exact not_startsWith_http_of_slash h q hhttp
  refine ⟨cleanSourceUrl_of_plain _ (by simp) h37 h38 h63 h58 hstart, ?_⟩
  rw [getDisplayUrl_plain h pre s hh hp hs hne hidx, replaceFirst_lit_of_not_includes _ h hwww,
    hbrand]
  simp only [Bool.false_eq_true, if_false, if_neg (Nat.not_lt.2 hlen), List.append_nil]

set_option maxRecDepth 100000 in
/-- C3 (witness): `plainhost.com/docs/a-very-long-final-path-segment-name` is
labelled `plainhost.com`. -/
theorem getDisplayUrl_long_last_segment_witness :
    cleanSourceUrl (js "plainhost.com" ++ (js "/docs" ++ 47 :: js "a-very-long-final-path-segment-name"))
      = .ok (js "https://" ++ (js "plainhost.com"
          ++ (js "/docs" ++ 47 :: js "a-very-long-final-path-segment-name"))) ∧
    getDisplayUrl (js "https://" ++ (js "plainhost.com"
        ++ (js "/docs" ++ 47 :: js "a-very-long-final-path-segment-name")))
      = some (js "plainhost.com") :=
  getDisplayUrl_long_last_segment (js "plainhost.com") (js "/docs")
    (js "a-very-long-final-path-segment-name")
    (by decide) (by decide) (by decide) (by decide) (by decide) (by decide) (by decide)

end NestleChatbot
